import Mathlib

/-! Verification of the fluxture/blockscraper core.

A shallow embedding of the core of the `trailofbits/fluxture` repository:

* `src/blockscraper/types.py` — the binary codec: `ByteOrder`, the
  `SizedInteger` family (formats `b B h H i I l L q Q` of Python's `struct`
  module) and `Struct` (ordered composites packed by concatenation).
* `src/fluxture/blockchain.py` — the `Node` connection-lifecycle state
  machine and the `Blockchain` registry.

Python byte strings are modelled as `List Nat` (each byte `< 256`); Python
integers as `Int`; exceptions as `Except PyErr`.  The behaviour of CPython's
`struct` module is embedded for both the standard modes (`<`, `>`, `!`:
standard sizes, no alignment) and the native mode (`@`), the latter with the
native sizes and alignments of an LP64 platform (x86-64 Linux, the
platform the repository targets): `long`/`unsigned long` are 8 bytes there,
and fields of a multi-field format are padded to their natural alignment.
-/

/-- The `ByteOrder` enum of `blockscraper/types.py`: `NATIVE = "@"`,
`LITTLE = "<"`, `BIG = ">"`, `NETWORK = "!"`. -/
inductive ByteOrder
  | native
  | little
  | big
  | network
deriving DecidableEq, Repr

/-- The `struct` format characters used by the ten `SizedInteger` subclasses
(`Char` = `b`, `UnsignedChar` = `B`, `Short` = `h`, `UnsignedShort` = `H`,
`Int` = `i`, `UnsignedInt` = `I`, `Long` = `l`, `UnsignedLong` = `L`,
`LongLong` = `q`, `UnsignedLongLong` = `Q`).  Each value of this type is one
sized-integer kind. -/
inductive IntFormat
  | b
  | B
  | h
  | H
  | i
  | I
  | l
  | L
  | q
  | Q
deriving DecidableEq, Repr

/-- Source: `SIGNED = cls.FORMAT.islower()` from `SizedIntegerMeta.__init__`. -/
def SIGNED : IntFormat → Bool
  | .b => true
  | .B => false
  | .h => true
  | .H => false
  | .i => true
  | .I => false
  | .l => true
  | .L => false
  | .q => true
  | .Q => false

/-- Value of `struct.calcsize` for one format character in a standard-size mode
(`<`, `>`, `!`): `b/B` 1, `h/H` 2, `i/I` 4, `l/L` 4, `q/Q` 8. -/
def standardSize : IntFormat → Nat
  | .b => 1
  | .B => 1
  | .h => 2
  | .H => 2
  | .i => 4
  | .I => 4
  | .l => 4
  | .L => 4
  | .q => 8
  | .Q => 8

/-- Value of `struct.calcsize` for one format character in native mode (`@`) on an
LP64 platform: as `standardSize` except `l/L` (C `long`) are 8 bytes. -/
def nativeSize : IntFormat → Nat
  | .b => 1
  | .B => 1
  | .h => 2
  | .H => 2
  | .i => 4
  | .I => 4
  | .l => 8
  | .L => 8
  | .q => 8
  | .Q => 8

/-- Natural alignment of one format character in native mode (`@`) on
x86-64: equal to its native size. -/
def nativeAlign : IntFormat → Nat
  | .b => 1
  | .B => 1
  | .h => 2
  | .H => 2
  | .i => 4
  | .I => 4
  | .l => 8
  | .L => 8
  | .q => 8
  | .Q => 8

/-- Whether a byte order selects native mode (`@`), i.e. native sizes and
alignment in the `struct` module. -/
def ByteOrder.isNativeMode : ByteOrder → Bool
  | .native => true
  | _ => false

/-- Whether a byte order lays bytes out least-significant first.  `<` is
little-endian, `>` and `!` are big-endian, and `@` is the host order, which
on x86-64 is little-endian. -/
def ByteOrder.isLittle : ByteOrder → Bool
  | .native => true
  | .little => true
  | .big => false
  | .network => false

/-- Number of bytes `struct.pack` writes for one format character under a
given byte order. -/
def wireSize (o : ByteOrder) (f : IntFormat) : Nat :=
  if o.isNativeMode then nativeSize f else standardSize f

/-- Alignment `struct` imposes on one format character under a given byte
order (standard modes impose none). -/
def alignOf (o : ByteOrder) (f : IntFormat) : Nat :=
  if o.isNativeMode then nativeAlign f else 1

/-- Source: `BYTES = struct.calcsize` of the format with the `!` prefix, from
`SizedIntegerMeta.__init__`: the declared width, computed with the NETWORK
(standard-size) prefix. -/
def BYTES (f : IntFormat) : Nat := standardSize f

/-- Source: `BITS = cls.BYTES * 8` from `SizedIntegerMeta.__init__`. -/
def BITS (f : IntFormat) : Nat := BYTES f * 8

/-- Source: `MAX_VALUE = 2**(cls.BITS - [0, 1][cls.SIGNED]) - 1` from
`SizedIntegerMeta.__init__`. -/
def MAX_VALUE (f : IntFormat) : Int :=
  2 ^ (BITS f - (if SIGNED f then 1 else 0)) - 1

/-- Source: `MIN_VALUE = [0, -2**(cls.BITS - 1)][cls.SIGNED]` from
`SizedIntegerMeta.__init__`. -/
def MIN_VALUE (f : IntFormat) : Int :=
  if SIGNED f then -(2 ^ (BITS f - 1)) else 0

/-- The exception taxonomy of the spec: `RangeError` (out-of-range
sized-integer construction, a `ValueError` in the code), `FormatError`
(buffer-length mismatch, a `struct.error` in the code), `TypeError`
(`Blockchain.__init_subclass__` rejection) and `AttributeError`
(method access on `None`). -/
inductive PyErr
  | rangeError
  | formatError
  | typeError
  | attributeError
deriving DecidableEq, Repr

deriving instance DecidableEq for Except

/-- Source: `SizedInteger.__new__` — constructing an instance validates
`cls.MIN_VALUE <= value <= cls.MAX_VALUE` and raises (a `RangeError` in the
spec's taxonomy) otherwise; on success the instance is the integer itself. -/
def mkSizedInteger (f : IntFormat) (value : Int) : Except PyErr Int :=
  if MIN_VALUE f ≤ value ∧ value ≤ MAX_VALUE f then .ok value
  else .error .rangeError

/-- Little-endian base-256 digits of `n`, exactly `s` bytes. -/
def toLEBytes : Nat → Nat → List Nat
  | 0, _ => []
  | s + 1, n => n % 256 :: toLEBytes s (n / 256)

/-- Value of a little-endian base-256 digit list. -/
def fromLEBytes : List Nat → Nat
  | [] => 0
  | byte :: rest => byte + 256 * fromLEBytes rest

/-- Encoding of an integer into `s` bytes, `struct.pack` style: the value is
reduced mod `2^(8*s)` (two's complement for negatives) and laid out in the
requested endianness.  `SizedInteger.pack` only ever applies this to a
validated instance, whose value the reduction leaves unchanged. -/
def encodeInt (s : Nat) (littleE : Bool) (v : Int) : List Nat :=
  let le := toLEBytes s (v % (2 : Int) ^ (8 * s)).toNat
  if littleE then le else le.reverse

/-- Decoding of a byte slice into a `Nat`, `struct.unpack` style, in the
requested endianness. -/
def decodeNat (littleE : Bool) (data : List Nat) : Nat :=
  fromLEBytes (if littleE then data else data.reverse)

/-- Source: `SizedInteger.pack` —
`struct.pack(f"{byte_order.value}{cls.FORMAT}", self)` — the value encoded
into `wireSize o f` bytes in the order's endianness. -/
def packSized (f : IntFormat) (o : ByteOrder) (v : Int) : List Nat :=
  encodeInt (wireSize o f) o.isLittle v

/-- The decoding half of `SizedInteger.unpack`, after `struct.unpack` has
checked the buffer length: interpret the bytes (two's complement when the
format is signed) and re-validate through the constructor, as
`cls(struct.unpack(...)[0])` does. -/
def decodeSized (f : IntFormat) (o : ByteOrder) (data : List Nat) :
    Except PyErr Int :=
  mkSizedInteger f
    (if SIGNED f then
       if 2 ^ (8 * wireSize o f - 1) ≤ decodeNat o.isLittle data then
         (decodeNat o.isLittle data : Int) - 2 ^ (8 * wireSize o f)
       else (decodeNat o.isLittle data : Int)
     else (decodeNat o.isLittle data : Int))

/-- Source: `SizedInteger.unpack` —
`cls(struct.unpack(f"{byte_order.value}{cls.FORMAT}", data)[0])` —
`struct.unpack` raises unless the buffer length equals the format's size,
then the decoded value is re-validated by the constructor. -/
def unpackSized (f : IntFormat) (o : ByteOrder) (data : List Nat) :
    Except PyErr Int :=
  if data.length = wireSize o f then decodeSized f o data
  else .error .formatError

theorem toLEBytes_length (s n : Nat) : (toLEBytes s n).length = s := by
  induction s generalizing n with
  | zero => rfl
  | succ s ih => simp [toLEBytes, ih]

theorem toLEBytes_lt (s n : Nat) : ∀ byte ∈ toLEBytes s n, byte < 256 := by
  induction s generalizing n with
  | zero => intro byte hb; cases hb
  | succ s ih =>
    intro byte hb
    rcases List.mem_cons.mp hb with h | h
    · subst h; exact Nat.mod_lt _ (by norm_num)
    · exact ih _ byte h

theorem fromLEBytes_toLEBytes (s n : Nat) (h : n < 256 ^ s) :
    fromLEBytes (toLEBytes s n) = n := by
  induction s generalizing n with
  | zero =>
    simp [toLEBytes, fromLEBytes]
    omega
  | succ s ih =>
    have hdiv : n / 256 < 256 ^ s := by
      rw [Nat.div_lt_iff_lt_mul (by norm_num)]
      calc n < 256 ^ (s + 1) := h
        _ = 256 ^ s * 256 := by ring
    simp only [toLEBytes, fromLEBytes, ih (n / 256) hdiv]
    omega

theorem fromLEBytes_lt (data : List Nat) (h : ∀ byte ∈ data, byte < 256) :
    fromLEBytes data < 256 ^ data.length := by
  induction data with
  | nil => simp [fromLEBytes]
  | cons byte rest ih =>
    have hb : byte < 256 := h byte (List.mem_cons_self _ _)
    have hr : fromLEBytes rest < 256 ^ rest.length :=
      ih (fun x hx => h x (List.mem_cons_of_mem _ hx))
    simp only [fromLEBytes, List.length_cons, pow_succ]
    calc byte + 256 * fromLEBytes rest
        < 256 + 256 * fromLEBytes rest := by omega
      _ = 256 * (fromLEBytes rest + 1) := by ring
      _ ≤ 256 * 256 ^ rest.length := by
          exact Nat.mul_le_mul_left _ hr
      _ = 256 ^ rest.length * 256 := by ring

theorem encodeInt_length (s : Nat) (e : Bool) (v : Int) :
    (encodeInt s e v).length = s := by
  unfold encodeInt
  cases e <;> simp [toLEBytes_length]

theorem encodeInt_bytes_lt (s : Nat) (e : Bool) (v : Int) :
    ∀ byte ∈ encodeInt s e v, byte < 256 := by
  unfold encodeInt
  cases e <;> intro byte hb <;> simp at hb <;>
    exact toLEBytes_lt _ _ byte hb

theorem packSized_length (f : IntFormat) (o : ByteOrder) (v : Int) :
    (packSized f o v).length = wireSize o f :=
  encodeInt_length _ _ _

theorem decodeNat_encodeInt (s : Nat) (e : Bool) (v : Int) :
    decodeNat e (encodeInt s e v) = (v % (2 : Int) ^ (8 * s)).toNat := by
  have hpos : (0 : Int) < 2 ^ (8 * s) := by positivity
  have h1 := Int.emod_nonneg v (ne_of_gt hpos)
  have h2 := Int.emod_lt_of_pos v hpos
  have hc : ((256 : Nat) ^ s : Int) = (2 : Int) ^ (8 * s) := by
    push_cast
    rw [pow_mul]
    norm_num
  have hlt : (v % (2 : Int) ^ (8 * s)).toNat < 256 ^ s := by omega
  unfold decodeNat encodeInt
  cases e <;> simp [fromLEBytes_toLEBytes _ _ hlt]

/-- The two's-complement round trip on `k` bits: reducing `v` mod `2^k` and
re-interpreting the result as a signed `k`-bit value recovers any `v` in
`[-2^(k-1), 2^(k-1))`. -/
theorem twosComplement_roundtrip (k : Nat) (v : Int) (hk : 1 ≤ k)
    (hlo : -(2 ^ (k - 1)) ≤ v) (hhi : v < 2 ^ (k - 1)) :
    (if 2 ^ (k - 1) ≤ (v % (2 : Int) ^ k).toNat then
       ((v % (2 : Int) ^ k).toNat : Int) - 2 ^ k
     else ((v % (2 : Int) ^ k).toNat : Int)) = v := by
  have hsplit : (2 : Int) ^ k = 2 * 2 ^ (k - 1) := by
    conv_lhs => rw [show k = (k - 1) + 1 by omega]
    rw [pow_succ]
    ring
  have hcast : (((2 : Nat) ^ (k - 1) : Nat) : Int) = (2 : Int) ^ (k - 1) := by
    push_cast
    ring
  have hApos : (0 : Int) < 2 ^ (k - 1) := by positivity
  have hpos : (0 : Int) < 2 ^ k := by positivity
  have h1 := Int.emod_nonneg v (ne_of_gt hpos)
  have h2 := Int.emod_lt_of_pos v hpos
  have h3 : v % (2 : Int) ^ k = v ∨ v % (2 : Int) ^ k = v + 2 ^ k := by
    rcases le_or_lt 0 v with hv | hv
    · exact Or.inl (Int.emod_eq_of_lt hv (by omega))
    · refine Or.inr ?_
      have hstep : (v + (2 : Int) ^ k) % (2 : Int) ^ k = v % (2 : Int) ^ k := by
        rw [show v + (2 : Int) ^ k = v + (2 : Int) ^ k * 1 by ring,
          Int.add_mul_emod_self_left]
      rw [← hstep]
      exact Int.emod_eq_of_lt (by omega) (by omega)
  split_ifs with hcond
  · omega
  · omega

theorem BYTES_le_wireSize (f : IntFormat) (o : ByteOrder) :
    BYTES f ≤ wireSize o f := by
  cases f <;> cases o <;> decide

theorem one_le_wireSize (f : IntFormat) (o : ByteOrder) : 1 ≤ wireSize o f := by
  cases f <;> cases o <;> decide

theorem one_le_BITS (f : IntFormat) : 1 ≤ BITS f := by
  cases f <;> decide

theorem BITS_le_wireSize_bits (f : IntFormat) (o : ByteOrder) :
    BITS f ≤ 8 * wireSize o f := by
  have h := BYTES_le_wireSize f o
  unfold BITS
  omega

/-- Decoding the packed bytes of an in-range value recovers the value and
passes the constructor's re-validation. -/
theorem decodeSized_packSized (f : IntFormat) (o : ByteOrder) (v : Int)
    (h1 : MIN_VALUE f ≤ v) (h2 : v ≤ MAX_VALUE f) :
    decodeSized f o (packSized f o v) = .ok v := by
  have hble := BITS_le_wireSize_bits f o
  have hs1 := one_le_wireSize f o
  have hb1 := one_le_BITS f
  have hmk : mkSizedInteger f v = .ok v := by
    unfold mkSizedInteger
    rw [if_pos ⟨h1, h2⟩]
  unfold decodeSized packSized
  rw [decodeNat_encodeInt]
  cases hsf : SIGNED f with
  | true =>
    have hmin : MIN_VALUE f = -(2 ^ (BITS f - 1)) := by
      unfold MIN_VALUE
      rw [hsf]
      rfl
    have hmax : MAX_VALUE f = 2 ^ (BITS f - 1) - 1 := by
      unfold MAX_VALUE
      rw [hsf]
      rfl
    have hmono : (2 : Int) ^ (BITS f - 1) ≤ 2 ^ (8 * wireSize o f - 1) :=
      pow_le_pow_right₀ (by norm_num) (by omega)
    rw [if_pos rfl,
      twosComplement_roundtrip (8 * wireSize o f) v (by omega) (by omega)
        (by omega)]
    exact hmk
  | false =>
    have hmin : MIN_VALUE f = 0 := by
      unfold MIN_VALUE
      rw [hsf]
      rfl
    have hmax : MAX_VALUE f = 2 ^ (BITS f) - 1 := by
      unfold MAX_VALUE
      rw [hsf]
      rfl
    have hmono : (2 : Int) ^ (BITS f) ≤ 2 ^ (8 * wireSize o f) :=
      pow_le_pow_right₀ (by norm_num) (by omega)
    have hmod : v % (2 : Int) ^ (8 * wireSize o f) = v :=
      Int.emod_eq_of_lt (by omega) (by omega)
    rw [if_neg (by simp [hsf]), hmod]
    rw [show ((v.toNat : Int)) = v by omega]
    exact hmk

/-- C1: for every sized-integer kind (8/16/32/64-bit, signed or unsigned),
every value `v` with `MIN_VALUE ≤ v ≤ MAX_VALUE` and every byte order `o`,
unpacking the result of packing `v` under `o` yields `v` again:
`unpack(pack(v, o), o) == v`. -/
theorem sized_integer_pack_unpack_roundtrip (f : IntFormat) (o : ByteOrder)
    (v : Int) (h1 : MIN_VALUE f ≤ v) (h2 : v ≤ MAX_VALUE f) :
    unpackSized f o (packSized f o v) = .ok v := by
  unfold unpackSized
  rw [if_pos (packSized_length f o v)]
  exact decodeSized_packSized f o v h1 h2

theorem sized_integer_pack_unpack_roundtrip_witness :
    MIN_VALUE .h ≤ (-2 : Int) ∧ (-2 : Int) ≤ MAX_VALUE .h ∧
      unpackSized .h .big (packSized .h .big (-2)) = .ok (-2) :=
  ⟨by decide, by decide,
    sized_integer_pack_unpack_roundtrip .h .big (-2) (by decide) (by decide)⟩

/-- C2: constructing a sized-integer instance of any kind with value
`MIN_VALUE - 1` or `MAX_VALUE + 1` always fails with a `RangeError`, while
constructing it with `MIN_VALUE` or `MAX_VALUE` succeeds; every successfully
constructed instance satisfies `MIN_VALUE ≤ value ≤ MAX_VALUE`; and the
bounds are `[0, 2^(8*width)-1]` for unsigned kinds and
`[-2^(8*width-1), 2^(8*width-1)-1]` for signed kinds. -/
theorem sized_integer_range_enforcement (f : IntFormat) :
    mkSizedInteger f (MIN_VALUE f - 1) = .error .rangeError ∧
    mkSizedInteger f (MAX_VALUE f + 1) = .error .rangeError ∧
    mkSizedInteger f (MIN_VALUE f) = .ok (MIN_VALUE f) ∧
    mkSizedInteger f (MAX_VALUE f) = .ok (MAX_VALUE f) ∧
    (∀ v w : Int, mkSizedInteger f v = .ok w →
      MIN_VALUE f ≤ w ∧ w ≤ MAX_VALUE f) ∧
    (SIGNED f = false →
      MIN_VALUE f = 0 ∧ MAX_VALUE f = 2 ^ (8 * BYTES f) - 1) ∧
    (SIGNED f = true →
      MIN_VALUE f = -(2 ^ (8 * BYTES f - 1)) ∧
        MAX_VALUE f = 2 ^ (8 * BYTES f - 1) - 1) := by
  have hminmax : MIN_VALUE f ≤ MAX_VALUE f := by cases f <;> decide
  refine ⟨?_, ?_, ?_, ?_, ?_, ?_, ?_⟩
  · unfold mkSizedInteger
    rw [if_neg]
    omega
  · unfold mkSizedInteger
    rw [if_neg]
    omega
  · unfold mkSizedInteger
    rw [if_pos ⟨le_refl _, hminmax⟩]
  · unfold mkSizedInteger
    rw [if_pos ⟨hminmax, le_refl _⟩]
  · intro v w hok
    unfold mkSizedInteger at hok
    by_cases hin : MIN_VALUE f ≤ v ∧ v ≤ MAX_VALUE f
    · rw [if_pos hin] at hok
      cases hok
      exact hin
    · rw [if_neg hin] at hok
      cases hok
  · intro hsf
    unfold MIN_VALUE MAX_VALUE BITS
    rw [hsf]
    constructor
    · rfl
    · simp [Nat.mul_comm]
  · intro hsf
    unfold MIN_VALUE MAX_VALUE BITS
    rw [hsf]
    constructor
    · simp [Nat.mul_comm]
    · simp [Nat.mul_comm]

theorem sized_integer_range_enforcement_witness :
    mkSizedInteger .B (MIN_VALUE .B - 1) = .error .rangeError ∧
      (MIN_VALUE .B ≤ 5 ∧ (5 : Int) ≤ MAX_VALUE .B) ∧
      (MIN_VALUE .B = 0 ∧ MAX_VALUE .B = 2 ^ (8 * BYTES .B) - 1) :=
  ⟨(sized_integer_range_enforcement .B).1,
    (sized_integer_range_enforcement .B).2.2.2.2.1 5 5 (by decide),
    (sized_integer_range_enforcement .B).2.2.2.2.2.1 (by decide)⟩

/-- Round `off` up to the next multiple of `a` (the padding rule of the
`struct` module's native mode; `a = 1` in standard modes). -/
def alignUp (off a : Nat) : Nat := (off + a - 1) / a * a

/-- Value of `struct.calcsize` on the concatenated format string
`byte_order.value + "".join(field_type.FORMAT ...)` that `Struct.unpack`
builds: each field is padded to its alignment (native mode only), then
occupies its size; no trailing padding. -/
def calcsizeFrom (o : ByteOrder) : List IntFormat → Nat → Nat
  | [], off => off
  | f :: rest, off => calcsizeFrom o rest (alignUp off (alignOf o f) + wireSize o f)

/-- Value of `struct.calcsize` on a whole `Struct` schema's format string. -/
def structCalcsize (schema : List IntFormat) (o : ByteOrder) : Nat :=
  calcsizeFrom o schema 0

/-- Source: `Struct.pack` — the join of `field.pack(byte_order)` over the fields: the
concatenation of the fields' packed bytes in declared order, with no padding
and no alignment (each field packs its own single-character format). -/
def structPack (schema : List IntFormat) (values : List Int)
    (o : ByteOrder) : List Nat :=
  (List.zipWith (fun f v => packSized f o v) schema values).flatten

/-- The field-by-field decoding loop of `struct.unpack` on the concatenated
format, followed by the field-order re-validation that `cls(*values)`
performs in `Struct.__init__`: at absolute offset `pos`, skip the padding
the current field's alignment demands, decode the field's slice, and
continue on the remaining bytes. -/
def parseFields (o : ByteOrder) :
    List IntFormat → List Nat → Nat → Except PyErr (List Int)
  | [], _, _ => .ok []
  | f :: rest, data, pos =>
    match decodeSized f o
        ((data.drop (alignUp pos (alignOf o f) - pos)).take (wireSize o f)) with
    | .error e => .error e
    | .ok v =>
      match parseFields o rest
          (data.drop (alignUp pos (alignOf o f) - pos + wireSize o f))
          (alignUp pos (alignOf o f) + wireSize o f) with
      | .error e => .error e
      | .ok vs => .ok (v :: vs)

/-- Source: `Struct.unpack` —
`cls(*struct.unpack(byte_order.value + concatenated formats, data))` —
`struct.unpack` raises unless the buffer length equals the format's
`calcsize`, then each decoded value passes through its field kind's
constructor. -/
def structUnpack (schema : List IntFormat) (o : ByteOrder)
    (data : List Nat) : Except PyErr (List Int) :=
  if data.length = structCalcsize schema o then parseFields o schema data 0
  else .error .formatError

/-- The sum of the schema's declared field widths (each field kind's
`BYTES`). -/
def sumWidths (schema : List IntFormat) : Nat :=
  (schema.map BYTES).sum

/-- A value satisfies its field kind's range invariant. -/
def InRange (f : IntFormat) (v : Int) : Prop :=
  MIN_VALUE f ≤ v ∧ v ≤ MAX_VALUE f

instance (f : IntFormat) (v : Int) : Decidable (InRange f v) := by
  unfold InRange
  infer_instance

theorem alignUp_one (off : Nat) : alignUp off 1 = off := by
  simp [alignUp]

theorem nonNative_isNativeMode {o : ByteOrder} (ho : o ≠ .native) :
    o.isNativeMode = false := by
  cases o with
  | native => exact absurd rfl ho
  | little => rfl
  | big => rfl
  | network => rfl

theorem nonNative_wireSize {o : ByteOrder} (f : IntFormat) (ho : o ≠ .native) :
    wireSize o f = BYTES f := by
  unfold wireSize
  rw [nonNative_isNativeMode ho]
  rfl

theorem nonNative_alignOf {o : ByteOrder} (f : IntFormat) (ho : o ≠ .native) :
    alignOf o f = 1 := by
  unfold alignOf
  rw [nonNative_isNativeMode ho]
  rfl

theorem sumWidths_cons (f : IntFormat) (rest : List IntFormat) :
    sumWidths (f :: rest) = BYTES f + sumWidths rest := by
  simp [sumWidths]

theorem calcsizeFrom_nonNative {o : ByteOrder} (ho : o ≠ .native) :
    ∀ (schema : List IntFormat) (off : Nat),
      calcsizeFrom o schema off = off + sumWidths schema := by
  intro schema
  induction schema with
  | nil => intro off; simp [calcsizeFrom, sumWidths]
  | cons f rest ih =>
    intro off
    rw [calcsizeFrom, ih, nonNative_alignOf f ho, alignUp_one,
      nonNative_wireSize f ho, sumWidths_cons]
    omega

theorem structCalcsize_nonNative {o : ByteOrder} (schema : List IntFormat)
    (ho : o ≠ .native) : structCalcsize schema o = sumWidths schema := by
  unfold structCalcsize
  rw [calcsizeFrom_nonNative ho]
  omega

theorem structPack_length {o : ByteOrder} (ho : o ≠ .native) :
    ∀ (schema : List IntFormat) (values : List Int),
      schema.length = values.length →
      (structPack schema values o).length = sumWidths schema := by
  intro schema
  induction schema with
  | nil =>
    intro values h
    simp [structPack, sumWidths]
  | cons f rest ih =>
    intro values h
    cases values with
    | nil => cases h
    | cons v vs =>
      have hlen : rest.length = vs.length := by
        simpa using h
      simp only [structPack, List.zipWith_cons_cons, List.flatten_cons,
        List.length_append]
      rw [packSized_length, nonNative_wireSize f ho, sumWidths_cons]
      have := ih vs hlen
      unfold structPack at this
      omega

theorem decodeNat_lt (e : Bool) (data : List Nat)
    (h : ∀ byte ∈ data, byte < 256) :
    decodeNat e data < 256 ^ data.length := by
  unfold decodeNat
  cases e with
  | true => exact fromLEBytes_lt data h
  | false =>
    have := fromLEBytes_lt data.reverse (by
      intro byte hb
      exact h byte (List.mem_reverse.mp hb))
    simpa using this

theorem one_le_BYTES (f : IntFormat) : 1 ≤ BYTES f := by
  cases f <;> decide

/-- Under a standard-size byte order, decoding any byte slice of a kind's
declared width succeeds: the decoded value always lies inside the kind's
bounds, so the constructor's re-validation passes. -/
theorem decodeSized_ok {o : ByteOrder} (f : IntFormat) (ho : o ≠ .native)
    (slice : List Nat) (hlen : slice.length = BYTES f)
    (hb : ∀ byte ∈ slice, byte < 256) :
    ∃ v, decodeSized f o slice = .ok v ∧ InRange f v := by
  have hB1 := one_le_BYTES f
  have hn : decodeNat o.isLittle slice < 2 ^ (8 * BYTES f) := by
    have h1 := decodeNat_lt o.isLittle slice hb
    rw [hlen] at h1
    calc decodeNat o.isLittle slice < 256 ^ BYTES f := h1
      _ = 2 ^ (8 * BYTES f) := by
          rw [show (256 : Nat) = 2 ^ 8 by norm_num, ← pow_mul]
  have hcastFull : (((2 : Nat) ^ (8 * BYTES f) : Nat) : Int) =
      (2 : Int) ^ (8 * BYTES f) := by
    push_cast
    ring
  have hcastHalf : (((2 : Nat) ^ (8 * BYTES f - 1) : Nat) : Int) =
      (2 : Int) ^ (8 * BYTES f - 1) := by
    push_cast
    ring
  have hsplitI : (2 : Int) ^ (8 * BYTES f) = 2 * 2 ^ (8 * BYTES f - 1) := by
    conv_lhs => rw [show 8 * BYTES f = (8 * BYTES f - 1) + 1 by omega]
    rw [pow_succ]
    ring
  have hhalfpos : (0 : Int) < 2 ^ (8 * BYTES f - 1) := by positivity
  unfold decodeSized
  rw [nonNative_wireSize f ho]
  cases hsf : SIGNED f with
  | false =>
    have hmin : MIN_VALUE f = 0 := by
      unfold MIN_VALUE
      rw [hsf]
      rfl
    have hmax : MAX_VALUE f = 2 ^ (8 * BYTES f) - 1 := by
      unfold MAX_VALUE BITS
      rw [hsf]
      simp [Nat.mul_comm]
    have hconj : MIN_VALUE f ≤ (decodeNat o.isLittle slice : Int) ∧
        (decodeNat o.isLittle slice : Int) ≤ MAX_VALUE f := by omega
    refine ⟨_, ?_, hconj⟩
    rw [if_neg (by simp [hsf])]
    unfold mkSizedInteger
    rw [if_pos hconj]
  | true =>
    have hmin : MIN_VALUE f = -(2 ^ (8 * BYTES f - 1)) := by
      unfold MIN_VALUE BITS
      rw [hsf]
      simp [Nat.mul_comm]
    have hmax : MAX_VALUE f = 2 ^ (8 * BYTES f - 1) - 1 := by
      unfold MAX_VALUE BITS
      rw [hsf]
      simp [Nat.mul_comm]
    rw [if_pos rfl]
    by_cases hge : 2 ^ (8 * BYTES f - 1) ≤ decodeNat o.isLittle slice
    · have hconj : MIN_VALUE f ≤
          (decodeNat o.isLittle slice : Int) - 2 ^ (8 * BYTES f) ∧
          (decodeNat o.isLittle slice : Int) - 2 ^ (8 * BYTES f) ≤
            MAX_VALUE f := by omega
      refine ⟨_, ?_, hconj⟩
      rw [if_pos hge]
      unfold mkSizedInteger
      rw [if_pos hconj]
    · have hconj : MIN_VALUE f ≤ (decodeNat o.isLittle slice : Int) ∧
          (decodeNat o.isLittle slice : Int) ≤ MAX_VALUE f := by omega
      refine ⟨_, ?_, hconj⟩
      rw [if_neg hge]
      unfold mkSizedInteger
      rw [if_pos hconj]

theorem parseFields_structPack {o : ByteOrder} (ho : o ≠ .native)
    {schema : List IntFormat} {values : List Int}
    (h : List.Forall₂ InRange schema values) :
    ∀ pos, parseFields o schema (structPack schema values o) pos =
      .ok values := by
  induction h with
  | nil => intro pos; rfl
  | @cons f v rest vs hfv hrest ih =>
    intro pos
    have hpack : structPack (f :: rest) (v :: vs) o =
        packSized f o v ++ structPack rest vs o := by
      simp [structPack]
    have hplen : (packSized f o v).length = wireSize o f :=
      packSized_length f o v
    rw [parseFields, hpack, nonNative_alignOf f ho, alignUp_one]
    have htake : ((packSized f o v ++ structPack rest vs o).drop
        (pos - pos)).take (wireSize o f) = packSized f o v := by
      rw [Nat.sub_self, List.drop_zero, ← hplen, List.take_left]
    have hdrop : (packSized f o v ++ structPack rest vs o).drop
        (pos - pos + wireSize o f) = structPack rest vs o := by
      rw [Nat.sub_self, Nat.zero_add, ← hplen, List.drop_left]
    rw [htake, hdrop, decodeSized_packSized f o v hfv.1 hfv.2, ih]

theorem parseFields_ok {o : ByteOrder} (ho : o ≠ .native) :
    ∀ (schema : List IntFormat) (data : List Nat) (pos : Nat),
      data.length = sumWidths schema → (∀ byte ∈ data, byte < 256) →
      ∃ vs, parseFields o schema data pos = .ok vs ∧
        List.Forall₂ InRange schema vs := by
  intro schema
  induction schema with
  | nil =>
    intro data pos hlen hb
    exact ⟨[], rfl, List.Forall₂.nil⟩
  | cons f rest ih =>
    intro data pos hlen hb
    rw [sumWidths_cons] at hlen
    have hslice_len : (data.take (BYTES f)).length = BYTES f := by
      rw [List.length_take]
      omega
    obtain ⟨v, hv, hvr⟩ := decodeSized_ok f ho (data.take (BYTES f))
      hslice_len (fun byte hbmem => hb byte (List.mem_of_mem_take hbmem))
    obtain ⟨vs, hvs, hr⟩ := ih (data.drop (BYTES f))
      (pos + BYTES f)
      (by rw [List.length_drop]; omega)
      (fun byte hbmem => hb byte (List.mem_of_mem_drop hbmem))
    refine ⟨v :: vs, ?_, List.Forall₂.cons hvr hr⟩
    rw [parseFields, nonNative_alignOf f ho, alignUp_one, Nat.sub_self,
      nonNative_wireSize f ho, List.drop_zero, Nat.zero_add, hv, hvs]

/-- C3 (counterexample): the round trip fails under the NATIVE byte order.
For the schema `{a: UnsignedChar, b: Short}` with the in-range values
`(5, 300)`, `Struct.pack` emits 1 + 2 = 3 bytes (fields pack individually,
with no padding), but the concatenated format `"@Bh"` that `Struct.unpack`
hands to `struct.unpack` has `calcsize` 4 on x86-64 (the `h` field is padded
to 2-byte alignment), so unpacking the packed bytes raises a length
mismatch instead of reconstructing the struct. -/
theorem struct_roundtrip_native_counterexample :
    (MIN_VALUE .B ≤ 5 ∧ (5 : Int) ≤ MAX_VALUE .B) ∧
      (MIN_VALUE .h ≤ 300 ∧ (300 : Int) ≤ MAX_VALUE .h) ∧
      structPack [.B, .h] [5, 300] .native = [5, 44, 1] ∧
      structCalcsize [.B, .h] .native = 4 ∧
      structUnpack [.B, .h] .native (structPack [.B, .h] [5, 300] .native) =
        .error .formatError := by
  decide

/-- C3 (amended): for every `Struct` schema, every list of field values
satisfying their kinds' range invariants, and every byte order other than
NATIVE (little, big, network), `Struct.unpack(s.pack(o), o)` reconstructs
the field values of `s`, where `s.pack(o)` is the concatenation of each
field's packed bytes in declared field order with no padding and no
alignment. -/
theorem struct_pack_unpack_roundtrip (schema : List IntFormat)
    (values : List Int) (o : ByteOrder) (ho : o ≠ .native)
    (h : List.Forall₂ InRange schema values) :
    structUnpack schema o (structPack schema values o) = .ok values := by
  unfold structUnpack
  rw [if_pos, parseFields_structPack ho h]
  rw [structPack_length ho schema values h.length_eq,
    structCalcsize_nonNative schema ho]

theorem struct_pack_unpack_roundtrip_witness :
    (.network : ByteOrder) ≠ .native ∧
      structUnpack [.B, .H] .network (structPack [.B, .H] [5, 300] .network) =
        .ok [5, 300] :=
  ⟨by decide,
    struct_pack_unpack_roundtrip [.B, .H] [5, 300] .network (by decide)
      (List.Forall₂.cons (by decide)
        (List.Forall₂.cons (by decide) List.Forall₂.nil))⟩

/-- C4 (counterexample): under the NATIVE byte order the kind `Long`
(format `l`, declared `BYTES = 4` because the width is computed with the
standard-size NETWORK prefix) packs to `struct.calcsize("@l") = 8` bytes on
an LP64 platform, not to its declared width. -/
theorem pack_width_native_counterexample :
    (packSized .l .native 0).length = 8 ∧ BYTES .l = 4 := by
  decide

/-- C4 (amended): for every sized-integer kind and every byte order other
than NATIVE (little, big, network), `pack` returns a byte string whose
length is exactly the kind's declared `BYTES` (1, 2, 4, or 8 as fixed at
kind definition time). -/
theorem pack_width_exact (f : IntFormat) (o : ByteOrder) (v : Int)
    (ho : o ≠ .native) : (packSized f o v).length = BYTES f := by
  rw [packSized_length, nonNative_wireSize f ho]

theorem pack_width_exact_witness :
    (.network : ByteOrder) ≠ .native ∧
      (packSized .H .network 300).length = BYTES .H :=
  ⟨by decide, pack_width_exact .H .network 300 (by decide)⟩

/-- C5 (counterexample): under the NATIVE byte order, `Struct.unpack` for
the schema `{a: UnsignedChar, b: Short}` rejects a buffer whose length is
exactly the 3-byte sum of the declared field widths, because the
concatenated native format `"@Bh"` has `calcsize` 4 (alignment padding) —
contradicting the claim that a buffer of exactly the declared total length
succeeds for every byte order. -/
theorem struct_unpack_length_native_counterexample :
    sumWidths [.B, .h] = 3 ∧
      structUnpack [.B, .h] .native [0, 0, 0] = .error .formatError := by
  decide

/-- C5 (amended): for every `Struct` schema and every byte order other than
NATIVE (little, big, network), `Struct.unpack` fails with a `FormatError`
whenever the input buffer's length does not equal the sum of the schema's
declared field widths (never silently truncating or padding), and succeeds
on a buffer of exactly that total length. -/
theorem struct_unpack_length_check (schema : List IntFormat) (o : ByteOrder)
    (data : List Nat) (ho : o ≠ .native)
    (hb : ∀ byte ∈ data, byte < 256) :
    (data.length ≠ sumWidths schema →
      structUnpack schema o data = .error .formatError) ∧
    (data.length = sumWidths schema →
      ∃ vs, structUnpack schema o data = .ok vs) := by
  unfold structUnpack
  rw [structCalcsize_nonNative schema ho]
  constructor
  · intro hne
    rw [if_neg hne]
  · intro heq
    rw [if_pos heq]
    obtain ⟨vs, hvs, hforall⟩ := parseFields_ok ho schema data 0 heq hb
    exact ⟨vs, hvs⟩

theorem struct_unpack_length_check_witness :
    (structUnpack [.B, .H] .network [5, 1] = .error .formatError) ∧
      ∃ vs, structUnpack [.B, .H] .network [5, 1, 44] = .ok vs :=
  ⟨(struct_unpack_length_check [.B, .H] .network [5, 1] (by decide)
      (by decide)).1 (by decide),
    (struct_unpack_length_check [.B, .H] .network [5, 1, 44] (by decide)
      (by decide)).2 (by decide)⟩

/-- Modelled from the spec: the class `serialization.IPv6Address` that
`Node.__init__` uses to normalize addresses is imported from the
repository's `serialization` module, which is not part of the shown core.
Per the spec, the transport boundary "accepts textual IPv4, textual IPv6,
or raw address bytes, always normalized internally to IPv6 (with IPv4
addresses represented as IPv4-mapped IPv6 addresses)".  An address input is
modelled as either a textual IPv4 dotted quad (its four octets) or a
textual IPv6 address (its 128-bit value). -/
inductive AddrInput
  | textIPv4 (a b c d : Nat)
  | textIPv6 (value : Nat)
deriving DecidableEq, Repr

/-- Modelled from the spec: the IPv4-mapped IPv6 address `::ffff:a.b.c.d`
as a 128-bit value. -/
def ipv4Mapped (a b c d : Nat) : Nat :=
  0xffff * 2 ^ 32 + (a * 2 ^ 24 + b * 2 ^ 16 + c * 2 ^ 8 + d)

/-- Modelled from the spec: normalization of an accepted address input to
its canonical IPv6 form (a 128-bit value), IPv4 inputs becoming
IPv4-mapped IPv6 addresses. -/
def normalizeAddress : AddrInput → Nat
  | .textIPv4 a b c d => ipv4Mapped a b c d
  | .textIPv6 value => value

/-- Mutable connection state of a `Node`: whether `self._reader` and
`self._writer` hold streams, the `self._entries` counter, and the
`self._stop` event (`none` = no event object yet; `some b` = an
`asyncio.Event` whose flag is `b`). -/
structure ConnState where
  readerConnected : Bool
  writerConnected : Bool
  entries : Int
  stop : Option Bool
deriving DecidableEq, Repr

/-- Connection state right after `Node.__init__`: no streams, a zero entry
counter, no stop event. -/
def initConnState : ConnState :=
  { readerConnected := false, writerConnected := false, entries := 0,
    stop := none }

/-- Model of a `Node`: the normalized endpoint plus connection state. -/
structure PyNode where
  address : Nat
  port : Nat
  conn : ConnState
deriving DecidableEq, Repr

/-- Source: `Node.__init__` — store the normalized IPv6 address and the
port, with fresh connection state. -/
def mkNode (a : AddrInput) (p : Nat) : PyNode :=
  { address := normalizeAddress a, port := p, conn := initConnState }

/-- Source: `Node.__eq__` — `isinstance(other, Node) and other.address ==
self.address and other.port == self.port`: equality reads only the
endpoint, never the connection state. -/
def nodeEq (x y : PyNode) : Bool :=
  x.address == y.address && x.port == y.port

/-- Source: `Node.__hash__` — `hash((self.address, self.port))`: a fixed
function of the endpoint pair only (the pair hash is modelled by the
canonical pairing function). -/
def nodeHash (x : PyNode) : Nat :=
  Nat.pair x.address x.port

/-- Source: `Node.connect`, with the transport's success abstracted — if no
reader stream is present, open the reader/writer pair, then create the stop
event if absent (`asyncio.Event()` starts unset) or clear it if set;
otherwise do nothing. -/
def connectBody (s : ConnState) : ConnState :=
  if s.readerConnected then s
  else
    { s with
      readerConnected := true
      writerConnected := true
      stop := (match s.stop with
               | none => some false
               | some true => some false
               | some false => some false) }

/-- Source: `Node.close` — if a writer stream is present, close it, clear
both stream handles, and set the stop event (the code calls
`self._stop.is_set()`, which on a `None` stop would raise
`AttributeError`); no-op otherwise. -/
def closeBody (s : ConnState) : Except PyErr ConnState :=
  if s.writerConnected then
    match s.stop with
    | none => .error .attributeError
    | some _ =>
      .ok { s with
            readerConnected := false
            writerConnected := false
            stop := some true }
  else .ok s

/-- Connection state instrumented with counters for how many times the
connect and close primitives have been invoked. -/
structure Instrumented where
  conn : ConnState
  connectCalls : Nat
  closeCalls : Nat
deriving DecidableEq, Repr

/-- Source: `Node.__aenter__` — increment `self._entries`; if the counter
is now 1 and no reader stream exists, invoke the connect primitive. -/
def aenterOp (i : Instrumented) : Instrumented :=
  if i.conn.entries + 1 = 1 ∧ i.conn.readerConnected = false then
    { conn := connectBody { i.conn with entries := i.conn.entries + 1 },
      connectCalls := i.connectCalls + 1, closeCalls := i.closeCalls }
  else
    { i with conn := { i.conn with entries := i.conn.entries + 1 } }

/-- Source: `Node.__aexit__` — decrement `self._entries`; if the counter is
now 0 and a reader stream exists, invoke the close primitive. -/
def aexitOp (i : Instrumented) : Except PyErr Instrumented :=
  if i.conn.entries - 1 = 0 ∧ i.conn.readerConnected = true then
    match closeBody { i.conn with entries := i.conn.entries - 1 } with
    | .error e => .error e
    | .ok s =>
      .ok { conn := s, connectCalls := i.connectCalls,
            closeCalls := i.closeCalls + 1 }
  else
    .ok { i with conn := { i.conn with entries := i.conn.entries - 1 } }

/-- Source: `Node.terminate` — `if self._stop is not None:
self._stop.set()`: set the stop event if one exists. -/
def terminateOp (s : ConnState) : ConnState :=
  { s with stop := (match s.stop with
                    | none => none
                    | some _ => some true) }

/-- Source: `Node.join` — `if self._stop is not None: await
self._stop.wait()`.  The call suspends exactly when a stop event exists and
its flag is unset (an `asyncio.Event`'s `wait` is level-triggered: it
returns immediately whenever the flag is set). -/
def joinWouldBlock (s : ConnState) : Bool :=
  match s.stop with
  | none => false
  | some flag => !flag

theorem connectBody_entries (s : ConnState) :
    (connectBody s).entries = s.entries := by
  unfold connectBody
  split_ifs <;> rfl

theorem closeBody_entries (s t : ConnState) (h : closeBody s = .ok t) :
    t.entries = s.entries := by
  unfold closeBody at h
  split_ifs at h with hw
  · cases hstop : s.stop with
    | none =>
      rw [hstop] at h
      simp at h
    | some flag =>
      rw [hstop] at h
      injection h with h2
      rw [← h2]
  · injection h with h2
    rw [← h2]

/-- C6: Node equality and hashing are determined solely by the
(address, port) endpoint after normalization to IPv6, independently of any
connection state: a Node built from the textual IPv4 address 127.0.0.1 and
one built from the equivalent IPv4-mapped IPv6 textual form with the same
port compare equal and hash identically, whatever the two connection
states; and in general two Nodes with equal endpoints are equal with equal
hashes regardless of state. -/
theorem node_endpoint_equality :
    (∀ s t : ConnState,
      nodeEq { mkNode (.textIPv4 127 0 0 1) 8333 with conn := s }
          { mkNode (.textIPv6 0xffff7f000001) 8333 with conn := t } = true ∧
      nodeHash { mkNode (.textIPv4 127 0 0 1) 8333 with conn := s } =
        nodeHash { mkNode (.textIPv6 0xffff7f000001) 8333 with conn := t }) ∧
    (∀ (a p : Nat) (s t : ConnState),
      nodeEq ⟨a, p, s⟩ ⟨a, p, t⟩ = true ∧
        nodeHash ⟨a, p, s⟩ = nodeHash ⟨a, p, t⟩) := by
  constructor
  · intro s t
    constructor
    · simp [nodeEq, mkNode, normalizeAddress, ipv4Mapped]
    · norm_num [nodeHash, mkNode, normalizeAddress, ipv4Mapped]
  · intro a p s t
    constructor
    · simp [nodeEq]
    · rfl

/-- C7: each scope entry increments the entry counter and invokes the
connect primitive exactly when the counter transitions from 0 to 1 with no
existing connection; each scope exit decrements the counter and invokes the
close primitive exactly when the counter returns to 0 with a connection
present.  In particular, from a fresh Node, entering twice and exiting once
leaves the connection open with connect invoked once and close never;
the second exit closes the connection, and across the nested pair connect
and close are each invoked exactly once. -/
theorem scoped_connection_nesting :
    (∀ i : Instrumented,
      (aenterOp i).conn.entries = i.conn.entries + 1 ∧
      (aenterOp i).connectCalls =
        i.connectCalls +
          (if i.conn.entries + 1 = 1 ∧ i.conn.readerConnected = false
           then 1 else 0)) ∧
    (∀ i j : Instrumented, aexitOp i = .ok j →
      j.conn.entries = i.conn.entries - 1 ∧
      j.closeCalls =
        i.closeCalls +
          (if i.conn.entries - 1 = 0 ∧ i.conn.readerConnected = true
           then 1 else 0)) ∧
    (aenterOp (aenterOp ⟨initConnState, 0, 0⟩) =
        ⟨⟨true, true, 2, some false⟩, 1, 0⟩ ∧
      aexitOp ⟨⟨true, true, 2, some false⟩, 1, 0⟩ =
        .ok ⟨⟨true, true, 1, some false⟩, 1, 0⟩ ∧
      aexitOp ⟨⟨true, true, 1, some false⟩, 1, 0⟩ =
        .ok ⟨⟨false, false, 0, some true⟩, 1, 1⟩) := by
  refine ⟨?_, ?_, by decide⟩
  · intro i
    unfold aenterOp
    split_ifs with hg
    · exact ⟨connectBody_entries _, rfl⟩
    · exact ⟨rfl, rfl⟩
  · intro i j h
    unfold aexitOp at h
    split_ifs at h with hg
    · cases hcb : closeBody { i.conn with entries := i.conn.entries - 1 } with
      | error e =>
        rw [hcb] at h
        simp at h
      | ok s =>
        rw [hcb] at h
        injection h with h2
        rw [← h2]
        exact ⟨closeBody_entries _ _ hcb, by rw [if_pos hg]⟩
    · injection h with h2
      rw [← h2]
      refine ⟨rfl, ?_⟩
      rw [if_neg hg]
      simp

theorem scoped_connection_nesting_witness :
    (⟨⟨false, false, 0, some true⟩, 1, 1⟩ : Instrumented).conn.entries =
        (⟨⟨true, true, 1, some false⟩, 1, 0⟩ : Instrumented).conn.entries
          - 1 ∧
      (⟨⟨false, false, 0, some true⟩, 1, 1⟩ : Instrumented).closeCalls =
        (⟨⟨true, true, 1, some false⟩, 1, 0⟩ : Instrumented).closeCalls +
          (if (⟨⟨true, true, 1, some false⟩, 1, 0⟩ :
              Instrumented).conn.entries - 1 = 0 ∧
              (⟨⟨true, true, 1, some false⟩, 1, 0⟩ :
                Instrumented).conn.readerConnected = true
           then 1 else 0) :=
  scoped_connection_nesting.2.1 ⟨⟨true, true, 1, some false⟩, 1, 0⟩
    ⟨⟨false, false, 0, some true⟩, 1, 1⟩ (by decide)

/-- C8: after terminate() is called on a Node, a wait-for-stop (join) does
not suspend: the stop signal is level-triggered and persistent, so repeated
terminations keep it set, and any waiter that observes a set stop signal
(including one that starts waiting after termination) returns promptly.
When no stop event exists at all, join returns immediately as well. -/
theorem terminate_level_triggered :
    (∀ s : ConnState, joinWouldBlock (terminateOp s) = false) ∧
    (∀ s : ConnState, terminateOp (terminateOp s) = terminateOp s) ∧
    (∀ s : ConnState, s.stop = some true → joinWouldBlock s = false) := by
  refine ⟨?_, ?_, ?_⟩
  · intro s
    rcases s with ⟨r, w, e, st⟩
    cases st <;> rfl
  · intro s
    rcases s with ⟨r, w, e, st⟩
    cases st <;> rfl
  · intro s h
    simp [joinWouldBlock, h]

theorem terminate_level_triggered_witness :
    joinWouldBlock ⟨false, false, 0, some true⟩ = false :=
  terminate_level_triggered.2.2 ⟨false, false, 0, some true⟩ rfl

/-- Class attributes of a `Blockchain` subclass relevant to registration:
`name` and `node_type`.  `none` models the attribute being missing or
`None` (the code treats the two alike:
`not hasattr(cls, "name") or cls.name is None`); the node type is
represented by its class name. -/
structure ChainDef where
  name : Option String
  nodeType : Option String
deriving DecidableEq, Repr

/-- Assignment `BLOCKCHAINS[cls.name] = cls` into a Python dict, modelled
on an association list: replace the value at an existing key in place, or
append a new binding. -/
def dictSet : List (String × ChainDef) → String → ChainDef →
    List (String × ChainDef)
  | [], k, v => [(k, v)]
  | (k2, v2) :: rest, k, v =>
    if k2 = k then (k, v) :: rest else (k2, v2) :: dictSet rest k v

/-- Source: `Blockchain.__init_subclass__` — raise `TypeError` when `name`
is missing or `None`, then when `node_type` is missing or `None`, and
otherwise record the class in `BLOCKCHAINS` under `cls.name`. -/
def initSubclassOp (reg : List (String × ChainDef)) (c : ChainDef) :
    Except PyErr (List (String × ChainDef)) :=
  match c.name with
  | none => .error .typeError
  | some nm =>
    match c.nodeType with
    | none => .error .typeError
    | some _ => .ok (dictSet reg nm c)

/-- Lookup `BLOCKCHAINS[name]` in the association-list dict model. -/
def lookupChain : List (String × ChainDef) → String → Option ChainDef
  | [], _ => none
  | (k, v) :: rest, nm => if k = nm then some v else lookupChain rest nm

/-- Number of entries the registry holds under a given key. -/
def countKey (reg : List (String × ChainDef)) (k : String) : Nat :=
  (reg.filter (fun p => p.1 == k)).length

theorem countKey_nil (k : String) : countKey [] k = 0 := rfl

theorem countKey_cons (k2 : String) (v2 : ChainDef)
    (rest : List (String × ChainDef)) (k : String) :
    countKey ((k2, v2) :: rest) k =
      (if k2 = k then 1 else 0) + countKey rest k := by
  unfold countKey
  rw [List.filter_cons]
  by_cases h : k2 = k
  · have hb : ((k2, v2).1 == k) = true := beq_iff_eq.mpr h
    rw [hb, if_pos h]
    simp [Nat.add_comm]
  · have hb : ((k2, v2).1 == k) = false := beq_eq_false_iff_ne.mpr h
    rw [hb, if_neg h]
    simp

theorem dictSet_countKey (reg : List (String × ChainDef)) (k : String)
    (v : ChainDef) (h : countKey reg k ≤ 1) :
    countKey (dictSet reg k v) k = 1 := by
  induction reg with
  | nil => simp [dictSet, countKey_cons, countKey_nil]
  | cons p rest ih =>
    obtain ⟨k2, v2⟩ := p
    rw [countKey_cons] at h
    unfold dictSet
    by_cases hk : k2 = k
    · rw [if_pos hk] at h
      rw [if_pos hk, countKey_cons, if_pos rfl]
      omega
    · rw [if_neg hk] at h
      rw [if_neg hk, countKey_cons, if_neg hk, ih (by omega)]

theorem dictSet_lookup_self (reg : List (String × ChainDef)) (k : String)
    (v : ChainDef) : lookupChain (dictSet reg k v) k = some v := by
  induction reg with
  | nil => simp [dictSet, lookupChain]
  | cons p rest ih =>
    obtain ⟨k2, v2⟩ := p
    unfold dictSet
    by_cases hk : k2 = k
    · rw [if_pos hk]
      simp [lookupChain]
    · rw [if_neg hk]
      unfold lookupChain
      rw [if_neg hk, ih]

theorem dictSet_lookup_other (reg : List (String × ChainDef))
    (k k2 : String) (v : ChainDef) (h : k2 ≠ k) :
    lookupChain (dictSet reg k v) k2 = lookupChain reg k2 := by
  have hne : ¬k = k2 := fun hh => h hh.symm
  induction reg with
  | nil =>
    unfold dictSet lookupChain
    rw [if_neg hne]
    rfl
  | cons p rest ih =>
    obtain ⟨k3, v3⟩ := p
    unfold dictSet
    by_cases hk : k3 = k
    · rw [if_pos hk]
      unfold lookupChain
      rw [if_neg hne, if_neg (by rw [hk]; exact hne)]
    · rw [if_neg hk]
      unfold lookupChain
      by_cases hk2 : k3 = k2
      · rw [if_pos hk2, if_pos hk2]
      · rw [if_neg hk2, if_neg hk2, ih]

/-- C9 (counterexample): the registration check is `cls.name is None`, not
non-emptiness — a `Blockchain` subclass whose `name` is the empty string
registers successfully and is recorded under the empty-string key, so the
registry can hold a chain whose name is empty. -/
theorem registry_empty_name_counterexample :
    initSubclassOp [] ⟨some "", some "BitcoinNode"⟩ =
      .ok [("", ⟨some "", some "BitcoinNode"⟩)] ∧
      ("" : String).length = 0 :=
  ⟨rfl, rfl⟩

/-- C9 (amended): every chain recorded in the registry was registered with
a present, non-None name (which may be empty) and a non-None node type:
defining a subclass lacking either fails with a `TypeError` at definition
time and records nothing, and a successful definition records exactly one
entry under the subclass's name (the last registration winning on a name
collision, other keys unaffected). -/
theorem registry_registration (reg : List (String × ChainDef))
    (c : ChainDef) :
    (c.name = none → initSubclassOp reg c = .error .typeError) ∧
    (c.nodeType = none → initSubclassOp reg c = .error .typeError) ∧
    (∀ nm nt, c.name = some nm → c.nodeType = some nt →
      initSubclassOp reg c = .ok (dictSet reg nm c) ∧
      (countKey reg nm ≤ 1 → countKey (dictSet reg nm c) nm = 1) ∧
      lookupChain (dictSet reg nm c) nm = some c ∧
      (∀ k, k ≠ nm → lookupChain (dictSet reg nm c) k = lookupChain reg k)) := by
  refine ⟨?_, ?_, ?_⟩
  · intro h
    unfold initSubclassOp
    rw [h]
  · intro h
    unfold initSubclassOp
    cases hn : c.name with
    | none => rfl
    | some nm => rw [h]
  · intro nm nt hn hnt
    refine ⟨?_, fun hle => dictSet_countKey reg nm c hle,
      dictSet_lookup_self reg nm c,
      fun k hk => dictSet_lookup_other reg nm k c hk⟩
    unfold initSubclassOp
    rw [hn, hnt]

theorem registry_registration_witness :
    initSubclassOp [("btc", ⟨some "btc", some "N1"⟩)]
        ⟨some "btc", some "N2"⟩ =
      .ok (dictSet [("btc", ⟨some "btc", some "N1"⟩)] "btc"
        ⟨some "btc", some "N2"⟩) ∧
      countKey (dictSet [("btc", ⟨some "btc", some "N1"⟩)] "btc"
        ⟨some "btc", some "N2"⟩) "btc" = 1 :=
  ⟨((registry_registration [("btc", ⟨some "btc", some "N1"⟩)]
      ⟨some "btc", some "N2"⟩).2.2 "btc" "N2" rfl rfl).1,
    ((registry_registration [("btc", ⟨some "btc", some "N1"⟩)]
      ⟨some "btc", some "N2"⟩).2.2 "btc" "N2" rfl rfl).2.1 (by decide)⟩

/-- Model of a `Struct` instance: its fields in declaration order, each a
field name paired with the field's sized-integer value (the only `Packable`
field kinds `Struct.unpack` supports). -/
structure StructVal where
  fields : List (String × Int)
deriving DecidableEq, Repr

/-- Universe of Python values a `Struct` can be compared against: another
`Struct` instance or a non-`Struct` value (an int, a string, `None`). -/
inductive PyVal
  | structVal (s : StructVal)
  | intVal (n : Int)
  | strVal (s : String)
  | noneVal
deriving DecidableEq, Repr

/-- Source: `Struct.__eq__` — `isinstance(other, Struct) and len(self) ==
len(other) and all(a == b for (_, a), (_, b) in zip(self.items(),
other.items()))`: any non-`Struct` compares unequal; two structs compare by
field count and pairwise value equality in declaration order, with field
names and the concrete schema type ignored. -/
def structEqPy (s : StructVal) (other : PyVal) : Bool :=
  match other with
  | .structVal t =>
    s.fields.length == t.fields.length &&
      (s.fields.zip t.fields).all fun p => p.1.2 == p.2.2
  | _ => false

theorem zipAll_snd_iff :
    ∀ fs gs : List (String × Int), fs.length = gs.length →
      ((((fs.zip gs).all fun p => p.1.2 == p.2.2) = true) ↔
        fs.map Prod.snd = gs.map Prod.snd) := by
  intro fs
  induction fs with
  | nil =>
    intro gs hlen
    cases gs with
    | nil => simp
    | cons g gs2 => cases hlen
  | cons f fs2 ih =>
    intro gs hlen
    cases gs with
    | nil => cases hlen
    | cons g gs2 =>
      have hlen2 : fs2.length = gs2.length := by simpa using hlen
      simp [List.all_cons, beq_iff_eq, ih gs2 hlen2]

/-- C10: Struct equality ignores field names and the concrete schema type:
two Struct instances, even of different Struct subclasses with differently
named fields, compare equal exactly when they have the same number of
fields and their field values are pairwise equal in declaration order; and
a Struct never compares equal to a non-Struct value. -/
theorem struct_equality_structural :
    (∀ fs gs : List (String × Int), fs.length = gs.length →
      fs.map Prod.snd = gs.map Prod.snd →
      structEqPy ⟨fs⟩ (.structVal ⟨gs⟩) = true) ∧
    (∀ fs gs : List (String × Int),
      structEqPy ⟨fs⟩ (.structVal ⟨gs⟩) = true →
      fs.length = gs.length ∧ fs.map Prod.snd = gs.map Prod.snd) ∧
    (∀ (s : StructVal) (v : PyVal), (∀ t, v ≠ .structVal t) →
      structEqPy s v = false) := by
  refine ⟨?_, ?_, ?_⟩
  · intro fs gs hlen hsnd
    simp only [structEqPy]
    rw [Bool.and_eq_true]
    exact ⟨by simp [hlen], (zipAll_snd_iff fs gs hlen).mpr hsnd⟩
  · intro fs gs h
    simp only [structEqPy] at h
    rw [Bool.and_eq_true] at h
    have hlen : fs.length = gs.length := by simpa using h.1
    exact ⟨hlen, (zipAll_snd_iff fs gs hlen).mp h.2⟩
  · intro s v hv
    cases v with
    | structVal t => exact absurd rfl (hv t)
    | intVal n => rfl
    | strVal s2 => rfl
    | noneVal => rfl

theorem struct_equality_structural_witness :
    structEqPy ⟨[("a", 5)]⟩ (.structVal ⟨[("b", 5)]⟩) = true ∧
      structEqPy ⟨[("a", 5)]⟩ (.intVal 5) = false :=
  ⟨struct_equality_structural.1 [("a", 5)] [("b", 5)] rfl rfl,
    struct_equality_structural.2.2 ⟨[("a", 5)]⟩ (.intVal 5)
      (fun t h => by cases h)⟩
